import Mathlib

set_option autoImplicit false

/-!
Verification of the LeadAI lead-generation pipeline
(`src/ai_lead_generation_agent.py`) against its specification.

The development shallowly embeds the pure/observable core of each component:

* `PyVal` models the JSON-like Python values flowing through the pipeline
  (`None`, `bool`, `int`, `str`, `list`, `dict`); floats never occur in the
  claims and are omitted.  `_to_jsonable` is the identity on this fragment
  (its first branch passes primitives, dicts and lists through unchanged),
  so the coercion step of the URL parser is modelled as such.
* External network calls (Firecrawl, Gemini, Composio) are parametrised by
  their responses; exceptions raised by third-party clients are modelled
  with `Option`/`Except`.
-/

namespace LeadAI

/-- JSON-like Python value (the domain of `_to_jsonable`'s pass-through
branch in `src/ai_lead_generation_agent.py`). -/
inductive PyVal where
  | pnone
  | pbool (b : Bool)
  | pint (n : Int)
  | pstr (s : String)
  | plist (xs : List PyVal)
  | pdict (es : List (String × PyVal))

/-- Python truthiness (`if x:`) on the JSON-like fragment. -/
def truthy : PyVal → Bool
  | .pnone => false
  | .pbool b => b
  | .pint n => n != 0
  | .pstr s => s != ""
  | .plist xs => !xs.isEmpty
  | .pdict es => !es.isEmpty

/-- `dict.get(k)`: first binding of `k` (Python dicts have unique keys, so
first-match lookup is exact on that fragment). -/
def dictGet (es : List (String × PyVal)) (k : String) : Option PyVal :=
  match es with
  | [] => none
  | (k', v) :: rest => if k' = k then some v else dictGet rest k

/-- `dict.get(k)` with Python's `None` default. -/
def getv (es : List (String × PyVal)) (k : String) : PyVal :=
  (dictGet es k).getD .pnone

/-- Hex digit used by `json.dumps` ensure-ascii escapes (lowercase). -/
def hexDigit (n : Nat) : Char :=
  if n < 10 then Char.ofNat (48 + n) else Char.ofNat (87 + n)

/-- Four-digit hex block of a `\uXXXX` escape. -/
def hex4 (n : Nat) : List Char :=
  [hexDigit (n / 4096 % 16), hexDigit (n / 256 % 16), hexDigit (n / 16 % 16), hexDigit (n % 16)]

/-- `\uXXXX` escape (with surrogate pair above the BMP), as `json.dumps`
produces with its default `ensure_ascii=True`. -/
def uEscape (c : Char) : List Char :=
  let n := c.toNat
  if n ≤ 0xFFFF then '\\' :: 'u' :: hex4 n
  else
    let m := n - 0x10000
    ('\\' :: 'u' :: hex4 (0xD800 + m / 0x400)) ++ ('\\' :: 'u' :: hex4 (0xDC00 + m % 0x400))

/-- Escaping of one character inside a `json.dumps` string literal. -/
def jsonEscapeChar (c : Char) : List Char :=
  if c = '"' then ['\\', '"']
  else if c = '\\' then ['\\', '\\']
  else if c = '\n' then ['\\', 'n']
  else if c = '\t' then ['\\', 't']
  else if c = '\r' then ['\\', 'r']
  else if c = '\x08' then ['\\', 'b']
  else if c = '\x0c' then ['\\', 'f']
  else if c.toNat < 0x20 || 0x7e < c.toNat then uEscape c
  else [c]

/-- `json.dumps` rendering of a string literal. -/
def jsonQuote (s : String) : String :=
  String.mk ('"' :: (s.data.map jsonEscapeChar).flatten ++ ['"'])

mutual

/-- `json.dumps(obj)` with the default separators `", "` / `": "`
(the serialization used by the URL parser's stringify fallback). -/
def jsonDumps : PyVal → String
  | .pnone => "null"
  | .pbool true => "true"
  | .pbool false => "false"
  | .pint n => toString n
  | .pstr s => jsonQuote s
  | .plist xs => "[" ++ dumpsItems xs ++ "]"
  | .pdict es => "\x7b" ++ dumpsEntries es ++ "\x7d"

/-- Comma-joined `json.dumps` renderings of list items. -/
def dumpsItems : List PyVal → String
  | [] => ""
  | [v] => jsonDumps v
  | v :: rest => jsonDumps v ++ ", " ++ dumpsItems rest

/-- Comma-joined `json.dumps` renderings of dict entries. -/
def dumpsEntries : List (String × PyVal) → String
  | [] => ""
  | [(k, v)] => jsonQuote k ++ ": " ++ jsonDumps v
  | (k, v) :: rest => jsonQuote k ++ ": " ++ jsonDumps v ++ ", " ++ dumpsEntries rest

end

/-- The Google-Sheets URL fragment tested by the parser's `in` checks. -/
def sheetFrag : String := "docs.google.com/spreadsheets/d/"

/-- The canonical spreadsheet URL stem the parser constructs and matches. -/
def sheetUrlStem : String := "https://docs.google.com/spreadsheets/d/"

/-- The regex class `[\w-]` of Python's spreadsheet-id patterns
(ASCII reading of `\w`; spreadsheet ids are ASCII). -/
def isIdChar (c : Char) : Bool := c.isAlphanum || c = '_' || c = '-'

/-- Python `\s` (ASCII whitespace). -/
def pyIsSpace (c : Char) : Bool :=
  c = ' ' || c = '\t' || c = '\n' || c = '\r' || c = '\x0b' || c = '\x0c'

/-- Python substring test `sheetFrag in s`. -/
def containsFrag (s : String) : Bool :=
  decide (sheetFrag.data <:+: s.data)

/-- One anchored attempt of
`re.search(r"https://docs\.google\.com/spreadsheets/d/[\w-]+", _)`
at the head of `cs`: the literal stem followed by a maximal non-empty
run of id characters. -/
def tryUrlAt (cs : List Char) : Option String :=
  if sheetUrlStem.data.isPrefixOf cs then
    let rest := cs.drop sheetUrlStem.data.length
    let run := rest.takeWhile isIdChar
    if run.isEmpty then none else some (String.mk (sheetUrlStem.data ++ run))
  else none

/-- Leftmost match of the canonical-URL regex (`re.search` scans
positions left to right). -/
def searchSheetUrl : List Char → Option String
  | [] => none
  | c :: cs => (tryUrlAt (c :: cs)).orElse fun _ => searchSheetUrl cs

/-- One anchored attempt of
`re.search(r"spreadsheetId\"?\s*[:=]\s*\"([\w-]+)\"", _)` at the head of
`cs`, returning capture group 1.  The pattern is deterministic: the
optional quote and the greedy runs never need backtracking, because a
quote is neither whitespace, nor `:`/`=`, nor an id character. -/
def trySidAt (cs : List Char) : Option String :=
  if ("spreadsheetId".data).isPrefixOf cs then
    let r1 := cs.drop ("spreadsheetId".data).length
    let r2 := match r1 with
      | '"' :: t => t
      | _ => r1
    let r3 := r2.dropWhile pyIsSpace
    match r3 with
    | c :: t =>
      if c = ':' || c = '=' then
        let t2 := t.dropWhile pyIsSpace
        match t2 with
        | '"' :: t3 =>
          let run := t3.takeWhile isIdChar
          if run.isEmpty then none
          else
            match t3.drop run.length with
            | '"' :: _ => some (String.mk run)
            | _ => none
        | _ => none
      else none
    | [] => none
  else none

/-- Leftmost match of the bare spreadsheet-id regex. -/
def searchSidToken : List Char → Option String
  | [] => none
  | c :: cs => (trySidAt (c :: cs)).orElse fun _ => searchSidToken cs

/-- `text = obj if isinstance(obj, str) else json.dumps(obj, default=str)`. -/
def stringifyPy (v : PyVal) : String :=
  match v with
  | .pstr s => s
  | _ => jsonDumps v

/-- Strategies 4 and 5 of the URL parser: stringify, regex-search for a
canonical URL, else regex-search for a bare id and construct the URL. -/
def regexFallback (v : PyVal) : Option String :=
  (searchSheetUrl (stringifyPy v).data).orElse fun _ =>
    (searchSidToken (stringifyPy v).data).map (fun g => sheetUrlStem ++ g)

/-- The `spreadsheetId`/`spreadsheet_id` branch:
`sid = obj.get("spreadsheetId") or obj.get("spreadsheet_id")` (Python `or`
falls through on falsy values), then the URL is constructed when `sid` is a
non-empty string. -/
def sidBranch (es : List (String × PyVal)) : Option String :=
  let sid := if truthy (getv es "spreadsheetId") then getv es "spreadsheetId"
             else getv es "spreadsheet_id"
  match sid with
  | .pstr s => if s = "" then none else some (sheetUrlStem ++ s)
  | _ => none

/-- The fixed list of known URL-bearing field names, in source order. -/
def urlFieldKeys : List String :=
  ["spreadsheetUrl", "spreadsheetURL", "url", "sheet_url", "sheetUrl",
   "document_url", "link", "webViewLink"]

/-- The direct-field loop: the first key whose value is a string containing
`sheetFrag` yields that string. -/
def firstUrlField (es : List (String × PyVal)) : List String → Option String
  | [] => none
  | k :: ks =>
    match dictGet es k with
    | some (.pstr v) => if containsFrag v then some v else firstUrlField es ks
    | _ => firstUrlField es ks

mutual

/-- `_extract_google_sheet_url_from_any` (without the leading underscore,
which Lean reserves): the structural search of strategies 1-3 over the
coerced value (`_to_jsonable` is the identity on `PyVal`), falling back to
the stringify-and-regex strategies 4-5.  The Python guard `if found:` on
recursive results never sees a non-`None` falsy value, because every
returned URL is a non-empty string, so it is modelled by `Option`. -/
def extract_google_sheet_url_from_any (v : PyVal) : Option String :=
  let s1 : Option String :=
    match v with
    | .pdict es =>
      (sidBranch es).orElse fun _ =>
        (firstUrlField es urlFieldKeys).orElse fun _ => searchEntries es
    | .plist xs => searchItems xs
    | _ => none
  s1.orElse fun _ => regexFallback v

/-- The nested search `for v in obj.values(): ...` over dict entries. -/
def searchEntries : List (String × PyVal) → Option String
  | [] => none
  | (_, w) :: rest =>
    (extract_google_sheet_url_from_any w).orElse fun _ => searchEntries rest

/-- The nested search `for it in obj: ...` over list items. -/
def searchItems : List PyVal → Option String
  | [] => none
  | w :: rest =>
    (extract_google_sheet_url_from_any w).orElse fun _ => searchItems rest

end

/-! ### Flattener (`format_user_info_to_flattened_json`) -/

/-- One extracted user interaction; `none` models a field absent from the
interaction dict, so `dict.get(key, default)` becomes `Option.getD`. -/
structure InteractionRecord where
  username : Option String := none
  bio : Option String := none
  post_type : Option String := none
  timestamp : Option String := none
  upvotes : Option Int := none
  links : Option (List String) := none

/-- One `{"website_url": ..., "user_info": [...]}` entry produced by the
interaction extractor. -/
structure SourcedInteractions where
  website_url : String
  user_info : List InteractionRecord

/-- One flattened output row with the seven fixed columns. -/
structure FlatRow where
  websiteURL : String
  username : String
  bio : String
  postType : String
  timestamp : String
  upvotes : Int
  links : String

/-- The body of the inner loop: one `FlatRow` from one interaction, with
the source's `.get` defaults and `", ".join(...)` for links. -/
def flattenInteraction (website_url : String) (it : InteractionRecord) : FlatRow :=
  { websiteURL := website_url
  , username := it.username.getD ""
  , bio := it.bio.getD ""
  , postType := it.post_type.getD ""
  , timestamp := it.timestamp.getD ""
  , upvotes := it.upvotes.getD 0
  , links := String.intercalate ", " (it.links.getD []) }

/-- `format_user_info_to_flattened_json`: the source's two nested
accumulating loops. -/
def format_user_info_to_flattened_json (user_info_list : List SourcedInteractions) : List FlatRow :=
  user_info_list.foldl
    (fun acc info => info.user_info.foldl
      (fun acc2 it => acc2 ++ [flattenInteraction info.website_url it]) acc) []

/-! ### Query condenser (`transform_with_gemini`) -/

/-- Python `str.split()` written with an accumulator: split on runs of
whitespace, discarding empty tokens. -/
def pyWordsAux : List Char → List Char → List (List Char)
  | [], acc => if acc.isEmpty then [] else [acc.reverse]
  | c :: cs, acc =>
    if pyIsSpace c then
      if acc.isEmpty then pyWordsAux cs [] else acc.reverse :: pyWordsAux cs []
    else pyWordsAux cs (c :: acc)

/-- The whitespace-separated tokens of a character list (`str.split()`). -/
def pyWords (cs : List Char) : List (List Char) := pyWordsAux cs []

/-- `" ".join(words)`. -/
def joinWords : List (List Char) → List Char
  | [] => []
  | [w] => w
  | w :: rest => w ++ ' ' :: joinWords rest

/-- Python `str.strip()`: drop leading and trailing whitespace. -/
def pyStrip (s : String) : String :=
  String.mk (((s.data.dropWhile pyIsSpace).reverse.dropWhile pyIsSpace).reverse)

/-- `transform_with_gemini` with the network call parametrised: `resp` is
the model response's `.text` (or `none` when absent / `None`), `cursor` is
the session-persisted rotation index.  Returns the credential used (the
one passed to `genai.configure`), the post-processed phrase, and the new
cursor; raising `ValueError` on an empty pool is `Except.error`. -/
def transform_with_gemini (api_keys : List String) (cursor : Nat) (resp : Option String) :
    Except String (String × String × Nat) :=
  if h : api_keys.isEmpty then .error "No Gemini API keys provided"
  else
    let idx := cursor % api_keys.length
    let cursor' := (cursor + 1) % max 1 api_keys.length
    let key := api_keys.get ⟨idx, Nat.mod_lt _ (List.length_pos.mpr (by
      intro hnil; rw [hnil] at h; exact h List.isEmpty_nil))⟩
    let text0 := pyStrip (resp.getD "")
    let toks := pyWords text0.data
    let text := if toks.length > 8 then String.mk (joinWords (toks.take 8)) else text0
    .ok (key, text, cursor')

/-- The rotation cursor held in `st.session_state` after `n` condenser
calls that started from `c0`; `resps` gives the `n`-th model response.
A raising call leaves the cursor untouched (the `ValueError` fires before
the session update). -/
def cursorAfter (api_keys : List String) (resps : Nat → Option String) (c0 : Nat) : Nat → Nat
  | 0 => c0
  | n + 1 =>
    match transform_with_gemini api_keys (cursorAfter api_keys resps c0 n) (resps n) with
    | .ok (_, _, c') => c'
    | .error _ => cursorAfter api_keys resps c0 n

/-- The credential the `n`-th condenser call configures (`none` when the
call raises). -/
def keyUsedAt (api_keys : List String) (resps : Nat → Option String) (c0 : Nat) (n : Nat) :
    Option String :=
  match transform_with_gemini api_keys (cursorAfter api_keys resps c0 n) (resps n) with
  | .ok (k, _, _) => some k
  | .error _ => none

/-- The credentials used by `count` consecutive condenser calls. -/
def keysUsed (api_keys : List String) (resps : Nat → Option String) (c0 : Nat) (count : Nat) :
    List String :=
  (List.range count).filterMap (keyUsedAt api_keys resps c0)

/-! ### Link finder (`search_for_urls`) -/

/-- The request body `search_for_urls` posts to the search API; the
requested bound travels only here, in the `limit` field. -/
def searchPayload (company_description : String) (num_links : Nat) : PyVal :=
  .pdict [("query", .pstr ("quora websites where people are looking for "
            ++ company_description ++ " services")),
          ("limit", .pint (num_links : Int)),
          ("lang", .pstr "en"),
          ("location", .pstr "United States"),
          ("timeout", .pint 60000)]

/-- `result["url"]` for one search-result item: `none` models the raised
`KeyError`/`TypeError` when the item is not a dict with that key. -/
def itemUrl (x : PyVal) : Option PyVal :=
  match x with
  | .pdict fs => dictGet fs "url"
  | _ => none

/-- The list comprehension `[result["url"] for result in results]`;
`none` models a raised exception. -/
def collectUrls : List PyVal → Option (List PyVal)
  | [] => some []
  | x :: xs =>
    match itemUrl x with
    | none => none
    | some u => (collectUrls xs).map (u :: ·)

/-- `search_for_urls` with the HTTP exchange parametrised by the response
(`status`, parsed JSON `body`).  `company_description` and `num_links`
shape only the outgoing payload (`searchPayload`); the parser performs no
client-side truncation.  Iterating a non-list `data` value models Python
iteration: empty strings/dicts yield `[]`, anything else raises. -/
def search_for_urls (company_description : String) (num_links : Nat)
    (status : Nat) (body : PyVal) : Option (List PyVal) :=
  if status = 200 then
    match body with
    | .pdict es =>
      if truthy (getv es "success") then
        match (dictGet es "data").getD (.plist []) with
        | .plist xs => collectUrls xs
        | .pstr s => if s = "" then some [] else none
        | .pdict fs => if fs.isEmpty then some [] else none
        | _ => none
      else some []
    | _ => none
  else some []

/-! ### Interaction extractor (`extract_user_info_from_urls`) -/

/-- Outcome of the loop body for one URL, given that URL's extraction
response (`none` = the client call raised): `none` means an exception
escapes the loop body (aborting the batch), `some none` means the URL is
silently skipped, `some (some it)` means interactions `it` contribute. -/
def respOutcome (resp : Option PyVal) : Option (Option PyVal) :=
  match resp with
  | none => none
  | some (.pdict es) =>
    if truthy (getv es "success") &&
        (match getv es "status" with | .pstr s => s == "completed" | _ => false) then
      match (dictGet es "data").getD (.pdict []) with
      | .pdict ds =>
        let inter := (dictGet ds "interactions").getD (.plist [])
        if truthy inter then some (some inter) else some none
      | _ => none
    else some none
  | some _ => none

/-- The accumulating loop of `extract_user_info_from_urls`: the first
raising URL returns the accumulator (the surrounding `try` swallows the
exception and the already-collected entries are returned). -/
def extractGo (fetch : String → Option PyVal) :
    List String → List (String × PyVal) → List (String × PyVal)
  | [], acc => acc
  | u :: rest, acc =>
    match respOutcome (fetch u) with
    | none => acc
    | some none => extractGo fetch rest acc
    | some (some it) => extractGo fetch rest (acc ++ [(u, it)])

/-- `extract_user_info_from_urls`, with each URL's extraction response
given by `fetch`. -/
def extract_user_info_from_urls (urls : List String) (fetch : String → Option PyVal) :
    List (String × PyVal) :=
  extractGo fetch urls []

/-! ### Sheet publisher (`write_to_google_sheets_via_composio`) -/

/-- The observable behaviour of the Composio integration: whether toolset
acquisition succeeds (`ComposioToolSet`/`get_tools` are the only raise
sites not guarded by an inner `try`), and the result of invoking the
sheet-creation action on a given payload (`Except.error` = the attempt
raised, which the per-payload `try` turns into `continue`). -/
structure Integration where
  acquireOk : Bool
  attempt : PyVal → Except Unit PyVal

/-- A `FlatRow` as the Python dict the source passes to Composio. -/
def rowToPy (r : FlatRow) : PyVal :=
  .pdict [("Website URL", .pstr r.websiteURL), ("Username", .pstr r.username),
          ("Bio", .pstr r.bio), ("Post Type", .pstr r.postType),
          ("Timestamp", .pstr r.timestamp), ("Upvotes", .pint r.upvotes),
          ("Links", .pstr r.links)]

/-- The fixed list of request-shape variants, in source order
(`title or "AI Leads"` falls back on a falsy title). -/
def payload_options (rows : List FlatRow) (title : Option String) : List PyVal :=
  let data := PyVal.plist (rows.map rowToPy)
  let t := PyVal.pstr (match title with
    | some s => if s = "" then "AI Leads" else s
    | none => "AI Leads")
  [ .pdict [("title", t), ("data", data)]
  , .pdict [("title", t), ("rows", data)]
  , .pdict [("title", t), ("json", data)]
  , .pdict [("data", data)] ]

/-- The payload loop: attempts in order, a raising attempt is caught and
skipped, the first truthy result wins; also counts invocations. -/
def tryAttempts (integ : Integration) : List PyVal → Nat → Option PyVal × Nat
  | [], n => (none, n)
  | p :: rest, n =>
    match integ.attempt p with
    | .error _ => tryAttempts integ rest (n + 1)
    | .ok r => if truthy r then (some r, n + 1) else tryAttempts integ rest (n + 1)

/-- The body of `write_to_google_sheets_via_composio` without its outer
`try`: early return on empty rows, toolset acquisition (the only
unguarded raise site, `Except.error`), the payload loop, then URL
recovery with the stringify retry.  The result carries the sheet URL and
the number of integration invocations made (`debug=False`, so the
Streamlit calls are skipped). -/
def write_to_google_sheets_body (rows : List FlatRow) (integ : Integration)
    (title : Option String) : Except Unit (Option String × Nat) :=
  if rows.isEmpty then .ok (none, 0)
  else if integ.acquireOk then
    match tryAttempts integ (payload_options rows title) 0 with
    | (none, n) => .ok (none, n)
    | (some r, n) =>
      match extract_google_sheet_url_from_any r with
      | some url => .ok (some url, n)
      | none =>
        match extract_google_sheet_url_from_any (.pstr (stringifyPy r)) with
        | some url => .ok (some url, n)
        | none => .ok (none, n)
  else .error ()

/-- `write_to_google_sheets_via_composio`: the body wrapped in the outer
`try/except` that converts every escaped exception into `None` (the
acquisition raise happens before any invocation, so the count is 0). -/
def write_to_google_sheets_via_composio (rows : List FlatRow) (integ : Integration)
    (title : Option String) : Option String × Nat :=
  match write_to_google_sheets_body rows integ title with
  | .ok res => res
  | .error _ => (none, 0)

/-! ## General helper lemmas -/

/-- Boolean prefix test agrees with the `<+:` relation. -/
lemma isPrefixOf_iff_isPre (l₁ l₂ : List Char) : l₁.isPrefixOf l₂ = true ↔ l₁ <+: l₂ := by
  exact List.isPrefixOf_iff_prefix

lemma orElse_isSome {α : Type} (x : Option α) (f : Unit → Option α) :
    (x.orElse f).isSome = (x.isSome || (f ()).isSome) := by
  cases x <;> simp [Option.orElse]

lemma orElse_eq_some {α : Type} (x : Option α) (f : Unit → Option α) (u : α) :
    x.orElse f = some u ↔ (x = some u ∨ (x = none ∧ f () = some u)) := by
  cases x <;> simp [Option.orElse]

/-! ## C2: the flattener emits exactly one row per interaction, in order -/

lemma foldl_flatten_inner (url : String) (xs : List InteractionRecord)
    (acc : List FlatRow) :
    xs.foldl (fun a it => a ++ [flattenInteraction url it]) acc
      = acc ++ xs.map (flattenInteraction url) := by
  induction xs generalizing acc with
  | nil => simp
  | cons x xs ih => simp [ih]

lemma foldl_flatten_outer (l : List SourcedInteractions) (acc : List FlatRow) :
    l.foldl (fun acc info => info.user_info.foldl
        (fun acc2 it => acc2 ++ [flattenInteraction info.website_url it]) acc) acc
      = acc ++ l.flatMap (fun e => e.user_info.map (flattenInteraction e.website_url)) := by
  induction l generalizing acc with
  | nil => simp
  | cons e l ih =>
    rw [List.flatMap_cons, List.foldl_cons, foldl_flatten_inner, ih]
    simp [List.append_assoc]

/-- C2: for every input sequence of `SourcedInteractions`, the flattener
produces exactly one `FlatRow` per interaction record — the output is the
in-order concatenation of each entry's mapped interaction list — so the
total row count is the sum of the interaction-list lengths, and every
row's `Website URL` is its entry's source URL. -/
theorem C2_flattener_rows (l : List SourcedInteractions) :
    format_user_info_to_flattened_json l
        = l.flatMap (fun e => e.user_info.map (flattenInteraction e.website_url)) ∧
    (format_user_info_to_flattened_json l).length
        = (l.map (fun e => e.user_info.length)).sum ∧
    ∀ (e : SourcedInteractions) (it : InteractionRecord),
      (flattenInteraction e.website_url it).websiteURL = e.website_url := by
  refine ⟨?_, ?_, fun e it => rfl⟩
  · simpa [format_user_info_to_flattened_json] using foldl_flatten_outer l []
  · have h1 := foldl_flatten_outer l []
    simp only [List.nil_append] at h1
    rw [format_user_info_to_flattened_json, h1, List.length_flatMap]
    congr 1
    exact List.map_congr_left (fun e he => by simp [Function.comp, List.length_map])

/-! ## C8: empty credential pool fails fast, non-empty never does -/

/-- C8: with an empty key pool the condenser raises
`ValueError("No Gemini API keys provided")` (the spec's
`ConfigurationError`) regardless of any network response — the check
precedes the model call — and with a non-empty pool that error cannot
occur. -/
theorem C8_condenser_requires_keys :
    (∀ c r, transform_with_gemini [] c r = .error "No Gemini API keys provided") ∧
    (∀ keys c r, keys ≠ [] → ∃ out, transform_with_gemini keys c r = .ok out) := by
  constructor
  · intro c r; rfl
  · intro keys c r h
    have hne : keys.isEmpty = false := by simp [List.isEmpty_iff, h]
    simp only [transform_with_gemini, hne]
    exact ⟨_, rfl⟩

/-- Witness for C8 at a concrete pool. -/
theorem C8_condenser_requires_keys_witness :
    transform_with_gemini [] 0 none = .error "No Gemini API keys provided" ∧
    ∃ out, transform_with_gemini ["k"] 0 none = .ok out :=
  ⟨C8_condenser_requires_keys.1 0 none,
   C8_condenser_requires_keys.2 ["k"] 0 none (by decide)⟩

/-! ## C7: the publisher never propagates, and is a no-op on empty rows -/

/-- C7: the sheet publisher returns `None` without a single integration
invocation when the row list is empty, and any exception escaping its
body (modelled by `Except.error`) is caught and converted to the
no-result value — never propagated. -/
theorem C7_publisher_no_raise (rows : List FlatRow) (integ : Integration)
    (title : Option String) :
    (write_to_google_sheets_via_composio [] integ title = (none, 0) ∧
     write_to_google_sheets_body [] integ title = .ok (none, 0)) ∧
    (∀ e, write_to_google_sheets_body rows integ title = .error e →
       write_to_google_sheets_via_composio rows integ title = (none, 0)) := by
  refine ⟨⟨rfl, rfl⟩, fun e h => ?_⟩
  simp [write_to_google_sheets_via_composio, h]

/-- Witness for C7: a publisher whose toolset acquisition raises. -/
theorem C7_publisher_no_raise_witness :
    (write_to_google_sheets_via_composio []
        ⟨false, fun _ => .error ()⟩ none = (none, 0)) ∧
    write_to_google_sheets_body [⟨"u", "", "", "", "", 0, ""⟩]
        ⟨false, fun _ => .error ()⟩ none = .error () ∧
    write_to_google_sheets_via_composio [⟨"u", "", "", "", "", 0, ""⟩]
        ⟨false, fun _ => .error ()⟩ none = (none, 0) :=
  ⟨(C7_publisher_no_raise [] ⟨false, fun _ => .error ()⟩ none).1.1,
   rfl,
   (C7_publisher_no_raise [⟨"u", "", "", "", "", 0, ""⟩]
       ⟨false, fun _ => .error ()⟩ none).2 () rfl⟩

/-! ## Tokenizer lemmas for the condenser -/

/-- Every token produced by `pyWordsAux` (with a whitespace-free
accumulator) is non-empty and whitespace-free. -/
lemma pyWordsAux_tokens (cs : List Char) :
    ∀ acc, (∀ c ∈ acc, pyIsSpace c = false) →
      ∀ w ∈ pyWordsAux cs acc, w ≠ [] ∧ ∀ c ∈ w, pyIsSpace c = false := by
  induction cs with
  | nil =>
    intro acc hacc w hw
    by_cases h : acc.isEmpty
    · simp [pyWordsAux, h] at hw
    · simp [pyWordsAux, h] at hw
      subst hw
      refine ⟨?_, fun c hc => hacc c (List.mem_reverse.mp hc)⟩
      simp only [ne_eq, List.reverse_eq_nil_iff]
      exact fun hnil => h (by simp [hnil])
  | cons c cs ih =>
    intro acc hacc w hw
    by_cases hsp : pyIsSpace c
    · by_cases h : acc.isEmpty
      · rw [pyWordsAux, if_pos hsp, if_pos h] at hw
        exact ih [] (by simp) w hw
      · rw [pyWordsAux, if_pos hsp, if_neg h] at hw
        rcases List.mem_cons.mp hw with hw | hw
        · subst hw
          refine ⟨?_, fun d hd => hacc d (List.mem_reverse.mp hd)⟩
          simp only [ne_eq, List.reverse_eq_nil_iff]
          exact fun hnil => h (by simp [hnil])
        · exact ih [] (by simp) w hw
    · rw [pyWordsAux, if_neg hsp] at hw
      refine ih (c :: acc) ?_ w hw
      intro d hd
      rcases List.mem_cons.mp hd with hd | hd
      · subst hd; simpa using hsp
      · exact hacc d hd

/-- Every token of `pyWords` is non-empty and whitespace-free. -/
lemma pyWords_tokens (cs : List Char) :
    ∀ w ∈ pyWords cs, w ≠ [] ∧ ∀ c ∈ w, pyIsSpace c = false :=
  pyWordsAux_tokens cs [] (by simp)

/-- Scanning a whitespace-free chunk just moves it into the accumulator. -/
lemma pyWordsAux_chunk (w : List Char) (hw : ∀ c ∈ w, pyIsSpace c = false) :
    ∀ cs acc, pyWordsAux (w ++ cs) acc = pyWordsAux cs (w.reverse ++ acc) := by
  induction w with
  | nil => intro cs acc; simp
  | cons c w ih =>
    intro cs acc
    have hc : pyIsSpace c = false := hw c (by simp)
    have hw' : ∀ d ∈ w, pyIsSpace d = false := fun d hd => hw d (by simp [hd])
    rw [List.cons_append, pyWordsAux, if_neg (by simp [hc]), ih hw']
    simp

/-- Splitting a single-space join of non-empty whitespace-free words
recovers exactly the words. -/
lemma pyWords_joinWords (ws : List (List Char))
    (h : ∀ w ∈ ws, w ≠ [] ∧ ∀ c ∈ w, pyIsSpace c = false) :
    pyWords (joinWords ws) = ws := by
  induction ws with
  | nil => rfl
  | cons w ws ih =>
    have hw := h w (by simp)
    have hrest : ∀ w' ∈ ws, w' ≠ [] ∧ ∀ c ∈ w', pyIsSpace c = false :=
      fun w' hw' => h w' (by simp [hw'])
    have hne : (w.reverse).isEmpty = false := by
      simp [List.isEmpty_iff, hw.1]
    cases ws with
    | nil =>
      show pyWordsAux (joinWords [w]) [] = [w]
      rw [show joinWords [w] = w from rfl]
      have hch : pyWordsAux (w ++ []) [] = pyWordsAux [] (w.reverse ++ []) :=
        pyWordsAux_chunk w hw.2 [] []
      simp only [List.append_nil] at hch
      rw [hch, pyWordsAux, if_neg (by simp [hne])]
      simp
    | cons w' ws' =>
      show pyWordsAux (joinWords (w :: w' :: ws')) [] = w :: w' :: ws'
      rw [show joinWords (w :: w' :: ws') = w ++ ' ' :: joinWords (w' :: ws') from rfl]
      rw [pyWordsAux_chunk w hw.2 (' ' :: joinWords (w' :: ws')) []]
      rw [pyWordsAux, if_pos (by simp [pyIsSpace]), if_neg (by simp [hne])]
      simp only [List.append_nil, List.reverse_reverse]
      exact congrArg (w :: .) (ih hrest)

/-! ## C4 (corrected) and C9 (corrected): condenser post-processing -/

/-- The one equation of `transform_with_gemini` in the non-empty case. -/
lemma transform_ok (keys : List String) (c : Nat) (r : Option String)
    (h : keys ≠ []) :
    transform_with_gemini keys c r
      = .ok (keys.get ⟨c % keys.length, Nat.mod_lt _ (List.length_pos.mpr h)⟩,
             (if (pyWords (pyStrip (r.getD "")).data).length > 8
              then String.mk (joinWords ((pyWords (pyStrip (r.getD "")).data).take 8))
              else pyStrip (r.getD "")),
             (c + 1) % max 1 keys.length) := by
  have hne : keys.isEmpty = false := by simp [List.isEmpty_iff, h]
  simp only [transform_with_gemini, hne]
  rfl

/-- C4, counterexample to "otherwise it is returned as-is": the response
`"\tlead gen\n"` has two (≤ 8) tokens, yet the returned phrase is the
stripped `"lead gen"`, not the response text. -/
theorem C4_as_is_counterexample :
    transform_with_gemini ["g"] 5 (some "\tlead gen\n") = .ok ("g", "lead gen", 0) ∧
    (pyWords ("\tlead gen\n").data).length ≤ 8 ∧
    "lead gen" ≠ "\tlead gen\n" := by
  refine ⟨by rfl, by decide, by decide⟩

/-- C4 (amended): the returned phrase always has at most 8
whitespace-separated tokens; a response with more than 8 tokens is
truncated to its first 8 tokens (joined by single spaces), and a
response with at most 8 tokens is returned stripped of leading and
trailing whitespace (not byte-for-byte as-is). -/
theorem C4_condenser_at_most_8_tokens (keys : List String) (c : Nat)
    (r : Option String) (k t : String) (c' : Nat)
    (h : transform_with_gemini keys c r = .ok (k, t, c')) :
    (pyWords t.data).length ≤ 8 ∧
    ((pyWords (pyStrip (r.getD "")).data).length > 8 →
       t = String.mk (joinWords ((pyWords (pyStrip (r.getD "")).data).take 8))) := by
  have hkeys : keys ≠ [] := by
    intro hnil; subst hnil; exact absurd h (by simp [transform_with_gemini])
  rw [transform_ok keys c r hkeys] at h
  have ht : t = (if (pyWords (pyStrip (r.getD "")).data).length > 8
      then String.mk (joinWords ((pyWords (pyStrip (r.getD "")).data).take 8))
      else pyStrip (r.getD "")) := by
    cases h; rfl
  by_cases hlen : (pyWords (pyStrip (r.getD "")).data).length > 8
  · rw [if_pos hlen] at ht
    subst ht
    constructor
    · have hprops : ∀ w ∈ (pyWords (pyStrip (r.getD "")).data).take 8,
          w ≠ [] ∧ ∀ ch ∈ w, pyIsSpace ch = false :=
        fun w hw => pyWords_tokens _ w (List.mem_of_mem_take hw)
      show (pyWords (String.mk (joinWords _)).data).length ≤ 8
      rw [show (String.mk (joinWords ((pyWords (pyStrip (r.getD "")).data).take 8))).data
            = joinWords ((pyWords (pyStrip (r.getD "")).data).take 8) from rfl]
      rw [pyWords_joinWords _ hprops]
      exact List.length_take_le 8 _
    · intro _; rfl
  · rw [if_neg hlen] at ht
    subst ht
    exact ⟨Nat.le_of_not_lt hlen, fun hcon => absurd hcon hlen⟩

/-- Witness for C4 at a 9-token response. -/
theorem C4_condenser_at_most_8_tokens_witness :
    transform_with_gemini ["k"] 0 (some "a b c d e f g h i")
        = .ok ("k", "a b c d e f g h", 0) ∧
    (pyWords ("a b c d e f g h" : String).data).length ≤ 8 := by
  have h : transform_with_gemini ["k"] 0 (some "a b c d e f g h i")
      = .ok ("k", "a b c d e f g h", 0) := by rfl
  exact ⟨h, (C4_condenser_at_most_8_tokens ["k"] 0 (some "a b c d e f g h i")
      "k" "a b c d e f g h" 0 h).1⟩

/-- C9, counterexample to "the returned phrase equals the response text
exactly" for ≤ 8-token responses: `" hi "` has one token but is returned
stripped. -/
theorem C9_untouched_counterexample :
    transform_with_gemini ["k"] 0 (some " hi ") = .ok ("k", "hi", 0) ∧
    (pyWords (" hi " : String).data).length ≤ 8 ∧
    "hi" ≠ " hi " := by
  refine ⟨by rfl, by decide, by decide⟩

/-- C9 (amended): apart from stripping leading/trailing whitespace and
the 8-token truncation, the condenser applies no post-processing — case,
punctuation and interior whitespace are untouched: whenever the stripped
response has at most 8 tokens, the returned phrase is exactly the
stripped response text. -/
theorem C9_condenser_no_other_processing (keys : List String) (c : Nat)
    (r : Option String) (k t : String) (c' : Nat)
    (h : transform_with_gemini keys c r = .ok (k, t, c'))
    (hlen : (pyWords (pyStrip (r.getD "")).data).length ≤ 8) :
    t = pyStrip (r.getD "") := by
  have hkeys : keys ≠ [] := by
    intro hnil; subst hnil; exact absurd h (by simp [transform_with_gemini])
  rw [transform_ok keys c r hkeys] at h
  have ht : t = (if (pyWords (pyStrip (r.getD "")).data).length > 8
      then String.mk (joinWords ((pyWords (pyStrip (r.getD "")).data).take 8))
      else pyStrip (r.getD "")) := by
    cases h; rfl
  rw [if_neg (by omega)] at ht
  exact ht

/-- Witness for C9: interior double spaces and case survive. -/
theorem C9_condenser_no_other_processing_witness :
    transform_with_gemini ["k"] 0 (some " AI  Chatbots! ") = .ok ("k", "AI  Chatbots!", 0) ∧
    "AI  Chatbots!" = pyStrip " AI  Chatbots!" := by
  have h : transform_with_gemini ["k"] 0 (some " AI  Chatbots! ")
      = .ok ("k", "AI  Chatbots!", 0) := by rfl
  exact ⟨h, C9_condenser_no_other_processing ["k"] 0 (some " AI  Chatbots! ")
      "k" "AI  Chatbots!" 0 h (by decide)⟩

/-! ## C3: round-robin credential rotation -/

lemma cursorAfter_succ (keys : List String) (resps : Nat → Option String)
    (c0 : Nat) (h : keys ≠ []) (n : Nat) :
    cursorAfter keys resps c0 (n + 1)
      = (cursorAfter keys resps c0 n + 1) % keys.length := by
  have hmax : max 1 keys.length = keys.length :=
    Nat.max_eq_right (List.length_pos.mpr h)
  rw [cursorAfter, transform_ok keys _ _ h, hmax]

lemma cursorAfter_mod (keys : List String) (resps : Nat → Option String)
    (c0 : Nat) (h : keys ≠ []) (n : Nat) :
    cursorAfter keys resps c0 n % keys.length = (c0 + n) % keys.length := by
  induction n with
  | zero => rfl
  | succ n ih =>
    rw [cursorAfter_succ keys resps c0 h n]
    have h1 : (cursorAfter keys resps c0 n + 1) % keys.length
        ≡ cursorAfter keys resps c0 n + 1 [MOD keys.length] :=
      Nat.mod_modEq _ _
    have h2 : cursorAfter keys resps c0 n + 1 ≡ (c0 + n) + 1 [MOD keys.length] :=
      Nat.ModEq.add_right 1 ih
    exact h1.trans h2

lemma keyUsedAt_eq (keys : List String) (resps : Nat → Option String)
    (c0 : Nat) (h : keys ≠ []) (n : Nat) :
    keyUsedAt keys resps c0 n
      = some (keys.get ⟨(c0 + n) % keys.length, Nat.mod_lt _ (List.length_pos.mpr h)⟩) := by
  rw [keyUsedAt, transform_ok keys _ _ h]
  exact congrArg (fun i => some (keys.get i))
    (Fin.ext (cursorAfter_mod keys resps c0 h n))

lemma keysUsed_eq_rotate (keys : List String) (resps : Nat → Option String)
    (c0 : Nat) (h : keys ≠ []) :
    keysUsed keys resps c0 keys.length = keys.rotate (c0 % keys.length) := by
  have hpos : 0 < keys.length := List.length_pos.mpr h
  have hfun : keyUsedAt keys resps c0
      = some ∘ (fun n => keys.get ⟨(c0 + n) % keys.length, Nat.mod_lt _ hpos⟩) :=
    funext fun n => keyUsedAt_eq keys resps c0 h n
  rw [keysUsed, hfun, List.filterMap_eq_map]
  refine List.ext_get ?_ ?_
  · simp [List.length_rotate]
  · intro n h1 h2
    have hn : n < keys.length := by simpa using h1
    have hrot := List.get_rotate keys (c0 % keys.length) ⟨n, h2⟩
    rw [hrot]
    have hget : (List.map (fun n => keys.get ⟨(c0 + n) % keys.length, Nat.mod_lt _ hpos⟩)
        (List.range keys.length)).get ⟨n, h1⟩
          = keys.get ⟨(c0 + n) % keys.length, Nat.mod_lt _ hpos⟩ := by
      simp [List.get_eq_getElem, List.getElem_map, List.getElem_range]
    rw [hget]
    refine congrArg keys.get (Fin.ext ?_)
    show (c0 + n) % keys.length = (↑(⟨n, h2⟩ : Fin (keys.rotate (c0 % keys.length)).length)
        + c0 % keys.length) % keys.length
    have : (n + c0 % keys.length) % keys.length = (n + c0) % keys.length :=
      Nat.ModEq.add_left n (Nat.mod_modEq c0 keys.length)
    simp only [this]
    rw [Nat.add_comm c0 n]

/-- C3: from any starting cursor, each condenser call selects
`keys[cursor % K]` and advances the cursor by 1 mod `K`; the `n`-th call
uses `keys[(c0 + n) % K]`; `K` consecutive calls use each credential
exactly once (a rotation of the pool, hence a permutation, with count 1
for every key of a de-duplicated pool, in the pool's cyclic order); and
the `(K+1)`-th call reuses the first call's credential. -/
theorem C3_credential_rotation (keys : List String) (resps : Nat → Option String)
    (c0 : Nat) (h : keys ≠ []) :
    (∀ c r, ∃ t, transform_with_gemini keys c r
        = .ok (keys.get ⟨c % keys.length, Nat.mod_lt _ (List.length_pos.mpr h)⟩,
               t, (c + 1) % keys.length)) ∧
    (∀ n, keyUsedAt keys resps c0 n
        = some (keys.get ⟨(c0 + n) % keys.length, Nat.mod_lt _ (List.length_pos.mpr h)⟩)) ∧
    keysUsed keys resps c0 keys.length = keys.rotate (c0 % keys.length) ∧
    (keysUsed keys resps c0 keys.length).Perm keys ∧
    (keys.Nodup → ∀ k ∈ keys, (keysUsed keys resps c0 keys.length).count k = 1) ∧
    keyUsedAt keys resps c0 keys.length = keyUsedAt keys resps c0 0 := by
  have hrot := keysUsed_eq_rotate keys resps c0 h
  have hmax : max 1 keys.length = keys.length :=
    Nat.max_eq_right (List.length_pos.mpr h)
  refine ⟨?_, keyUsedAt_eq keys resps c0 h, hrot, ?_, ?_, ?_⟩
  · intro c r
    exact ⟨_, by rw [transform_ok keys c r h, hmax]⟩
  · rw [hrot]; exact List.rotate_perm keys _
  · intro hnd k hk
    rw [hrot, (List.rotate_perm keys _).count_eq]
    exact List.count_eq_one_of_mem hnd hk
  · rw [keyUsedAt_eq keys resps c0 h, keyUsedAt_eq keys resps c0 h]
    exact congrArg (fun i => some (keys.get i))
      (Fin.ext (by simp [Nat.add_mod_right]))

/-- Witness for C3 at a three-key pool starting from cursor 1. -/
theorem C3_credential_rotation_witness :
    (["a", "b", "c"] : List String) ≠ [] ∧
    keysUsed ["a", "b", "c"] (fun _ => none) 1 3 = ["b", "c", "a"] ∧
    keyUsedAt ["a", "b", "c"] (fun _ => none) 1 3 = keyUsedAt ["a", "b", "c"] (fun _ => none) 1 0 := by
  refine ⟨by decide, ?_, (C3_credential_rotation ["a", "b", "c"] (fun _ => none) 1 (by decide)).2.2.2.2.2⟩
  rw [show (3 : Nat) = (["a", "b", "c"] : List String).length from rfl,
    (C3_credential_rotation ["a", "b", "c"] (fun _ => none) 1 (by decide)).2.2.1]
  rfl

/-! ## C5 (corrected): link finder -/

lemma collectUrls_all_some (xs : List PyVal) (h : ∀ x ∈ xs, (itemUrl x).isSome) :
    collectUrls xs = some (xs.filterMap itemUrl) ∧
    (xs.filterMap itemUrl).length = xs.length := by
  induction xs with
  | nil => exact ⟨rfl, rfl⟩
  | cons x xs ih =>
    obtain ⟨u, hu⟩ := Option.isSome_iff_exists.mp (h x (by simp))
    have ihr := ih (fun y hy => h y (by simp [hy]))
    rw [collectUrls, hu]
    constructor
    · rw [ihr.1]
      simp [List.filterMap_cons, hu]
    · simp [List.filterMap_cons, hu, ihr.2]

/-- A successful payload with two result items while `num_links = 1`:
the parser returns both URLs, refuting "truncated to at most `limit`
items" as a property of the function (the code applies no client-side
truncation; the bound only rides in the request payload). -/
def c5Body : PyVal :=
  .pdict [("success", .pbool true),
          ("data", .plist [.pdict [("url", .pstr "https://quora.com/a")],
                           .pdict [("url", .pstr "https://quora.com/b")]])]

/-- C5, counterexample to the truncation conjunct: with `limit = 1` and a
two-item successful response, two URLs are returned. -/
theorem C5_truncation_counterexample :
    search_for_urls "x" 1 200 c5Body
      = some [.pstr "https://quora.com/a", .pstr "https://quora.com/b"] ∧
    ¬ ([PyVal.pstr "https://quora.com/a", .pstr "https://quora.com/b"].length ≤ 1) :=
  ⟨by rfl, by decide⟩

/-- C5 (amended): on a non-success HTTP status, or on a payload whose
`success` flag is falsy, the link finder returns an empty list and no
error; on success it returns the `url` field of every result item in
response order — without client-side truncation, the requested bound
travelling only in the outgoing payload's `limit` field. -/
theorem C5_link_finder (d : String) (n status : Nat) (body : PyVal) :
    (status ≠ 200 → search_for_urls d n status body = some []) ∧
    (∀ es, body = .pdict es → truthy (getv es "success") = false →
       search_for_urls d n 200 body = some []) ∧
    (∀ es xs, body = .pdict es → truthy (getv es "success") = true →
       (dictGet es "data").getD (.plist []) = .plist xs →
       (∀ x ∈ xs, (itemUrl x).isSome) →
       search_for_urls d n 200 body = some (xs.filterMap itemUrl) ∧
       (xs.filterMap itemUrl).length = xs.length) ∧
    (∃ es, searchPayload d n = .pdict es ∧ dictGet es "limit" = some (.pint (n : Int))) := by
  refine ⟨fun hs => by simp [search_for_urls, hs], ?_, ?_, ?_⟩
  · intro es hbody hsucc
    subst hbody
    simp [search_for_urls, hsucc]
  · intro es xs hbody hsucc hdata hall
    subst hbody
    have hc := collectUrls_all_some xs hall
    refine ⟨?_, hc.2⟩
    rw [search_for_urls, if_pos rfl]
    simp only [hsucc, if_pos]
    rw [hdata]
    exact hc.1
  · refine ⟨_, rfl, ?_⟩
    simp [dictGet]

/-- Witness for C5's amended theorem at concrete inputs. -/
theorem C5_link_finder_witness :
    search_for_urls "x" 2 500 c5Body = some [] ∧
    search_for_urls "x" 2 200 (.pdict [("success", .pbool false)]) = some [] ∧
    search_for_urls "x" 2 200 c5Body
      = some [.pstr "https://quora.com/a", .pstr "https://quora.com/b"] := by
  have h1 := (C5_link_finder "x" 2 500 c5Body).1 (by decide)
  have h2 := (C5_link_finder "x" 2 200 (.pdict [("success", .pbool false)])).2.1
      _ rfl (by rfl)
  have h3 := ((C5_link_finder "x" 2 200 c5Body).2.2.1
      _ [PyVal.pdict [("url", .pstr "https://quora.com/a")],
         .pdict [("url", .pstr "https://quora.com/b")]] rfl (by rfl) (by rfl)
      (by intro x hx; fin_cases hx <;> rfl)).1
  exact ⟨h1, h2, by rw [h3]; rfl⟩

/-! ## C6: interaction extractor filtering and abort-on-exception -/

/-- The entry a URL contributes (claim-side view of one loop step). -/
def rowEntry (fetch : String → Option PyVal) (u : String) : Option (String × PyVal) :=
  match respOutcome (fetch u) with
  | some (some it) => some (u, it)
  | _ => none

lemma extractGo_clean (fetch : String → Option PyVal) (urls : List String)
    (h : ∀ u ∈ urls, (respOutcome (fetch u)).isSome = true) :
    ∀ acc, extractGo fetch urls acc = acc ++ urls.filterMap (rowEntry fetch) := by
  induction urls with
  | nil => intro acc; simp [extractGo]
  | cons u rest ih =>
    intro acc
    obtain ⟨o, ho⟩ := Option.isSome_iff_exists.mp (h u (by simp))
    have ihr := ih (fun x hx => h x (by simp [hx]))
    cases o with
    | none =>
      simp only [extractGo, ho]
      rw [ihr acc]
      simp [List.filterMap_cons, rowEntry, ho]
    | some it =>
      simp only [extractGo, ho]
      rw [ihr (acc ++ [(u, it)])]
      simp [List.filterMap_cons, rowEntry, ho]

lemma extractGo_abort (fetch : String → Option PyVal) (u : String)
    (post : List String) (hu : respOutcome (fetch u) = none) :
    ∀ pre, (∀ x ∈ pre, (respOutcome (fetch x)).isSome = true) →
    ∀ acc, extractGo fetch (pre ++ u :: post) acc
        = acc ++ pre.filterMap (rowEntry fetch) := by
  intro pre
  induction pre with
  | nil =>
    intro _ acc
    rw [List.nil_append, extractGo, hu]
    simp
  | cons x pre ih =>
    intro h acc
    obtain ⟨o, ho⟩ := Option.isSome_iff_exists.mp (h x (by simp))
    have ihr := ih (fun y hy => h y (by simp [hy]))
    cases o with
    | none =>
      rw [List.cons_append]
      simp only [extractGo, ho]
      rw [ihr acc]
      simp [List.filterMap_cons, rowEntry, ho]
    | some it =>
      rw [List.cons_append]
      simp only [extractGo, ho]
      rw [ihr (acc ++ [(x, it)])]
      simp [List.filterMap_cons, rowEntry, ho]

/-- C6: when no URL's processing raises, the extractor returns exactly
the in-order entries of those URLs whose response reports success, a
completed status and truthy interactions; when some URL raises, the
remaining URLs are dropped and the result is exactly what accumulated
before the exception.  For schema-shaped responses, contributing is
equivalent to `success` truthy, `status == "completed"` and a non-empty
interactions list. -/
theorem C6_extractor_partial_results (urls : List String)
    (fetch : String → Option PyVal) :
    ((∀ u ∈ urls, (respOutcome (fetch u)).isSome = true) →
       extract_user_info_from_urls urls fetch = urls.filterMap (rowEntry fetch)) ∧
    (∀ pre u post, urls = pre ++ u :: post →
       (∀ x ∈ pre, (respOutcome (fetch x)).isSome = true) →
       respOutcome (fetch u) = none →
       extract_user_info_from_urls urls fetch = pre.filterMap (rowEntry fetch)) ∧
    (∀ es ds l, dictGet es "data" = some (.pdict ds) →
       dictGet ds "interactions" = some (.plist l) →
       (respOutcome (some (.pdict es)) = some (some (.plist l))
         ↔ (truthy (getv es "success") = true ∧
            getv es "status" = .pstr "completed" ∧ l ≠ []))) := by
  refine ⟨?_, ?_, ?_⟩
  · intro h
    simpa using extractGo_clean fetch urls h []
  · intro pre u post hurls hpre hu
    subst hurls
    simpa using extractGo_abort fetch u post hu pre hpre []
  · intro es ds l hdata hinter
    rw [respOutcome]
    simp only [hdata, Option.getD_some, hinter]
    by_cases hsucc : truthy (getv es "success")
    · cases hstat : getv es "status" with
      | pstr s =>
        by_cases hs : s = "completed"
        · subst hs
          simp only [hsucc, Bool.true_and, beq_self_eq_true, if_pos]
          by_cases hl : l = []
          · subst hl; simp [truthy]
          · have : truthy (.plist l) = true := by
              simp [truthy, List.isEmpty_iff, hl]
            simp [this, hsucc, hl]
        · have : (s == "completed") = false := by simp [hs]
          simp [hsucc, this, hs]
      | pnone => simp [hsucc]
      | pbool b => simp [hsucc]
      | pint m => simp [hsucc]
      | plist xs => simp [hsucc]
      | pdict fs => simp [hsucc]
    · simp only [Bool.not_eq_true] at hsucc
      simp [hsucc]

/-- Concrete per-URL responses: `"a"`/`"c"` contribute, `"b"` is skipped
(falsy success), anything else raises. -/
def c6Fetch : String → Option PyVal := fun u =>
  if u = "a" then
    some (.pdict [("success", .pbool true), ("status", .pstr "completed"),
                  ("data", .pdict [("interactions", .plist [.pint 1])])])
  else if u = "b" then some (.pdict [("success", .pbool false)])
  else if u = "c" then
    some (.pdict [("success", .pbool true), ("status", .pstr "completed"),
                  ("data", .pdict [("interactions", .plist [.pint 2])])])
  else none

/-- Witness for C6: one contributing URL, one skipped, one contributing;
and a batch aborted by a raising middle URL. -/
theorem C6_extractor_partial_results_witness :
    extract_user_info_from_urls ["a", "b", "c"] c6Fetch
      = [("a", .plist [.pint 1]), ("c", .plist [.pint 2])] ∧
    extract_user_info_from_urls ["a", "x", "c"] c6Fetch
      = [("a", .plist [.pint 1])] := by
  have h1 := (C6_extractor_partial_results ["a", "b", "c"] c6Fetch).1
      (by intro u hu; fin_cases hu <;> rfl)
  have h2 := (C6_extractor_partial_results ["a", "x", "c"] c6Fetch).2.1
      ["a"] "x" ["c"] rfl (by intro x hx; fin_cases hx <;> rfl) rfl
  exact ⟨by rw [h1]; rfl, by rw [h2]; rfl⟩

/-! ## Shape lemmas for the URL parser's return sites -/

lemma frag_infix_stem_list (l : List Char) :
    sheetFrag.data <:+: sheetUrlStem.data ++ l := by
  refine ⟨"https://".data, l, ?_⟩
  exact congrArg (· ++ l) (by rfl)

lemma frag_infix_stem_append (s : String) :
    sheetFrag.data <:+: (sheetUrlStem ++ s).data := by
  rw [String.data_append]
  exact frag_infix_stem_list s.data

lemma tryUrlAt_shape (cs : List Char) (u : String) (h : tryUrlAt cs = some u) :
    ∃ run, u = String.mk (sheetUrlStem.data ++ run) := by
  simp only [tryUrlAt] at h
  split_ifs at h
  exact ⟨_, (Option.some.inj h).symm⟩

lemma searchSheetUrl_shape (cs : List Char) (u : String)
    (h : searchSheetUrl cs = some u) :
    ∃ run, u = String.mk (sheetUrlStem.data ++ run) := by
  induction cs with
  | nil => simp [searchSheetUrl] at h
  | cons c cs ih =>
    rw [searchSheetUrl] at h
    rcases (orElse_eq_some _ _ _).mp h with h1 | ⟨_, h2⟩
    · exact tryUrlAt_shape _ _ h1
    · exact ih h2

lemma regexFallback_infix (v : PyVal) (u : String) (h : regexFallback v = some u) :
    sheetFrag.data <:+: u.data := by
  simp only [regexFallback] at h
  rcases (orElse_eq_some _ _ _).mp h with h1 | ⟨_, h2⟩
  · obtain ⟨run, rfl⟩ := searchSheetUrl_shape _ _ h1
    exact frag_infix_stem_list run
  · obtain ⟨g, _, rfl⟩ := Option.map_eq_some'.mp h2
    exact frag_infix_stem_append g

lemma sidBranch_shape (es : List (String × PyVal)) (u : String)
    (h : sidBranch es = some u) : ∃ s, u = sheetUrlStem ++ s := by
  simp only [sidBranch] at h
  rcases hv : (if truthy (getv es "spreadsheetId") then getv es "spreadsheetId"
      else getv es "spreadsheet_id") with _ | b | m | s | xs | fs <;> rw [hv] at h
  · exact absurd h (by simp)
  · exact absurd h (by simp)
  · exact absurd h (by simp)
  · have h' : (if s = "" then none else some (sheetUrlStem ++ s)) = some u := h
    split_ifs at h'
    exact ⟨s, (Option.some.inj h').symm⟩
  · exact absurd h (by simp)
  · exact absurd h (by simp)

lemma firstUrlField_infix (es : List (String × PyVal)) (ks : List String)
    (u : String) (h : firstUrlField es ks = some u) : sheetFrag.data <:+: u.data := by
  induction ks with
  | nil => simp [firstUrlField] at h
  | cons k ks ih =>
    rw [firstUrlField] at h
    rcases hget : dictGet es k with _ | w
    · rw [hget] at h; exact ih h
    · rw [hget] at h
      cases w with
      | pstr v =>
        have h' : (if containsFrag v then some v else firstUrlField es ks) = some u := h
        by_cases hc : containsFrag v
        · rw [if_pos hc] at h'
          cases h'
          exact of_decide_eq_true hc
        · rw [if_neg hc] at h'; exact ih h' 
      | pnone => exact ih h
      | pbool b => exact ih h
      | pint m => exact ih h
      | plist xs => exact ih h
      | pdict fs => exact ih h

/-! ## C10: every recovered URL contains the spreadsheet-URL fragment -/

lemma searchEntries_infix_aux (es : List (String × PyVal))
    (hrec : ∀ p ∈ es, ∀ u, extract_google_sheet_url_from_any p.2 = some u →
      sheetFrag.data <:+: u.data) :
    ∀ u, searchEntries es = some u → sheetFrag.data <:+: u.data := by
  induction es with
  | nil => intro u h; simp [searchEntries] at h
  | cons p rest ih =>
    intro u h
    obtain ⟨k, w⟩ := p
    rw [searchEntries] at h
    rcases (orElse_eq_some _ _ _).mp h with h1 | ⟨_, h2⟩
    · exact hrec (k, w) (by simp) u h1
    · exact ih (fun q hq => hrec q (by simp [hq])) u h2

lemma searchItems_infix_aux (xs : List PyVal)
    (hrec : ∀ w ∈ xs, ∀ u, extract_google_sheet_url_from_any w = some u →
      sheetFrag.data <:+: u.data) :
    ∀ u, searchItems xs = some u → sheetFrag.data <:+: u.data := by
  induction xs with
  | nil => intro u h; simp [searchItems] at h
  | cons w rest ih =>
    intro u h
    rw [searchItems] at h
    rcases (orElse_eq_some _ _ _).mp h with h1 | ⟨_, h2⟩
    · exact hrec w (by simp) u h1
    · exact ih (fun q hq => hrec q (by simp [hq])) u h2

lemma extract_infix_aux (N : Nat) :
    ∀ v u, sizeOf v ≤ N → extract_google_sheet_url_from_any v = some u →
      sheetFrag.data <:+: u.data := by
  induction N with
  | zero =>
    intro v u hsz _
    exact absurd hsz (by cases v <;> simp)
  | succ N ih =>
    intro v u hsz h
    cases v with
    | pdict es =>
      simp only [extract_google_sheet_url_from_any] at h
      rcases (orElse_eq_some _ _ _).mp h with h1 | ⟨_, h2⟩
      · rcases (orElse_eq_some _ _ _).mp h1 with hsid | ⟨_, h3⟩
        · obtain ⟨s, rfl⟩ := sidBranch_shape es u hsid
          exact frag_infix_stem_append s
        · rcases (orElse_eq_some _ _ _).mp h3 with hfield | ⟨_, hent⟩
          · exact firstUrlField_infix es urlFieldKeys u hfield
          · refine searchEntries_infix_aux es ?_ u hent
            intro p hp u' h'
            refine ih p.2 u' ?_ h'
            have h5 : sizeOf p < sizeOf es := List.sizeOf_lt_of_mem hp
            have h6 : sizeOf (PyVal.pdict es) = 1 + sizeOf es := by simp
            have h7 : sizeOf p.2 < sizeOf p := by
              obtain ⟨a, b⟩ := p; simp
            omega
      · exact regexFallback_infix _ u h2
    | plist xs =>
      simp only [extract_google_sheet_url_from_any] at h
      rcases (orElse_eq_some _ _ _).mp h with h1 | ⟨_, h2⟩
      · refine searchItems_infix_aux xs ?_ u h1
        intro w hw u' h'
        refine ih w u' ?_ h'
        have h5 : sizeOf w < sizeOf xs := List.sizeOf_lt_of_mem hw
        have h6 : sizeOf (PyVal.plist xs) = 1 + sizeOf xs := by simp
        omega
      · exact regexFallback_infix _ u h2
    | pnone =>
      simp only [extract_google_sheet_url_from_any, Option.orElse] at h
      exact regexFallback_infix _ u h
    | pbool b =>
      simp only [extract_google_sheet_url_from_any, Option.orElse] at h
      exact regexFallback_infix _ u h
    | pint n =>
      simp only [extract_google_sheet_url_from_any, Option.orElse] at h
      exact regexFallback_infix _ u h
    | pstr s =>
      simp only [extract_google_sheet_url_from_any, Option.orElse] at h
      exact regexFallback_infix _ u h

/-- Shared invariant: every URL the parser returns contains the
spreadsheet-URL fragment. -/
lemma extract_infix (v : PyVal) (u : String)
    (h : extract_google_sheet_url_from_any v = some u) :
    sheetFrag.data <:+: u.data :=
  extract_infix_aux (sizeOf v) v u le_rfl h

/-- C10: whenever the URL-recovery function returns a string, that string
contains the substring `docs.google.com/spreadsheets/d/`. -/
theorem C10_recovered_url_contains_fragment (v : PyVal) (u : String)
    (h : extract_google_sheet_url_from_any v = some u) :
    sheetFrag.data <:+: u.data :=
  extract_infix v u h

/-- Witness for C10 on a raw-text result. -/
theorem C10_recovered_url_contains_fragment_witness :
    extract_google_sheet_url_from_any
        (.pstr "x https://docs.google.com/spreadsheets/d/foo y")
      = some "https://docs.google.com/spreadsheets/d/foo" ∧
    sheetFrag.data <:+: ("https://docs.google.com/spreadsheets/d/foo" : String).data :=
  ⟨by rfl, C10_recovered_url_contains_fragment
      (.pstr "x https://docs.google.com/spreadsheets/d/foo y")
      "https://docs.google.com/spreadsheets/d/foo" (by rfl)⟩

/-! ## C1 (corrected): URL recovery -/

/-- The claim's hypothesis: the value contains, at some nesting depth, a
mapping whose `"spreadsheetId"` key is bound to the string `id`. -/
inductive ContainsSid (id : String) : PyVal → Prop where
  | dict_here (es : List (String × PyVal))
      (h : dictGet es "spreadsheetId" = some (.pstr id)) :
      ContainsSid id (.pdict es)
  | dict_nest (es : List (String × PyVal)) (k : String) (w : PyVal)
      (hmem : (k, w) ∈ es) (h : ContainsSid id w) : ContainsSid id (.pdict es)
  | list_nest (xs : List PyVal) (w : PyVal)
      (hmem : w ∈ xs) (h : ContainsSid id w) : ContainsSid id (.plist xs)

/-- A nested value with `spreadsheetId = "abc123"`, preceded by a sibling
`spreadsheetId = "zzzz"` at the top level. -/
def c1Cex : PyVal :=
  .pdict [("spreadsheetId", .pstr "zzzz"),
          ("x", .pdict [("spreadsheetId", .pstr "abc123")])]

/-- C1, counterexample: `c1Cex` is a mapping containing (at depth 1) a
mapping with `spreadsheetId = "abc123"`, yet the parser returns the URL
built from the top-level `"zzzz"` identifier, not `.../abc123`. -/
theorem C1_nesting_counterexample :
    ContainsSid "abc123" c1Cex ∧ (∃ es, c1Cex = .pdict es) ∧
    extract_google_sheet_url_from_any c1Cex
      = some "https://docs.google.com/spreadsheets/d/zzzz" ∧
    extract_google_sheet_url_from_any c1Cex
      ≠ some "https://docs.google.com/spreadsheets/d/abc123" := by
  refine ⟨?_, ⟨_, rfl⟩, by rfl, by decide⟩
  exact ContainsSid.dict_nest _ "x" _ (List.Mem.tail _ (List.Mem.head _))
    (ContainsSid.dict_here _ rfl)

lemma searchEntries_isSome (es : List (String × PyVal)) (k : String) (w : PyVal)
    (hmem : (k, w) ∈ es) (hw : (extract_google_sheet_url_from_any w).isSome = true) :
    (searchEntries es).isSome = true := by
  induction es with
  | nil => cases hmem
  | cons p rest ih =>
    rw [searchEntries.eq_def]
    obtain ⟨k', w'⟩ := p
    rw [orElse_isSome]
    rcases List.mem_cons.mp hmem with heq | htail
    · cases heq
      simp [hw]
    · simp [ih htail]

lemma searchItems_isSome (xs : List PyVal) (w : PyVal)
    (hmem : w ∈ xs) (hw : (extract_google_sheet_url_from_any w).isSome = true) :
    (searchItems xs).isSome = true := by
  induction xs with
  | nil => cases hmem
  | cons x rest ih =>
    rw [searchItems.eq_def]
    rw [orElse_isSome]
    rcases List.mem_cons.mp hmem with heq | htail
    · cases heq
      simp [hw]
    · simp [ih htail]

lemma extract_isSome_of_contains (id : String) (v : PyVal)
    (hid : id ≠ "") (h : ContainsSid id v) :
    (extract_google_sheet_url_from_any v).isSome = true := by
  induction h with
  | dict_here es hget =>
    have hs : sidBranch es = some (sheetUrlStem ++ id) := by
      have hv : getv es "spreadsheetId" = .pstr id := by simp [getv, hget]
      have ht2 : truthy (.pstr id) = true := by simp [truthy, hid]
      simp only [sidBranch, hv, ht2, if_pos]
      simp [hid]
    simp only [extract_google_sheet_url_from_any]
    simp [orElse_isSome, hs]
  | dict_nest es k w hmem hc ih =>
    simp only [extract_google_sheet_url_from_any]
    simp [orElse_isSome, searchEntries_isSome es k w hmem ih]
  | list_nest xs w hmem hc ih =>
    simp only [extract_google_sheet_url_from_any]
    simp [orElse_isSome, searchItems_isSome xs w hmem ih]

/-! Leftmost-match lemmas for the raw-string half of C1. -/

lemma takeWhile_append_all (p : Char → Bool) (t r : List Char)
    (ht : ∀ c ∈ t, p c = true)
    (hr : ∀ c, r.head? = some c → p c = false) :
    (t ++ r).takeWhile p = t := by
  induction t with
  | nil =>
    cases r with
    | nil => rfl
    | cons c r' => simp [List.takeWhile_cons, hr c rfl]
  | cons a t' ih =>
    rw [List.cons_append, List.takeWhile_cons, ht a (by simp)]
    rw [ih (fun c hc => ht c (by simp [hc]))]
    simp

lemma searchSheetUrl_at_stem (idrun post : List Char) (hne : idrun ≠ [])
    (hid : ∀ c ∈ idrun, isIdChar c = true)
    (hpost : ∀ c, post.head? = some c → isIdChar c = false) :
    searchSheetUrl (sheetUrlStem.data ++ (idrun ++ post))
      = some (String.mk (sheetUrlStem.data ++ idrun)) := by
  have hmatch : tryUrlAt (sheetUrlStem.data ++ (idrun ++ post))
      = some (String.mk (sheetUrlStem.data ++ idrun)) := by
    have hpre : sheetUrlStem.data.isPrefixOf (sheetUrlStem.data ++ (idrun ++ post)) = true := by
      rw [isPrefixOf_iff_isPre]
      exact ⟨idrun ++ post, rfl⟩
    have hdrop : (sheetUrlStem.data ++ (idrun ++ post)).drop sheetUrlStem.data.length
        = idrun ++ post := List.drop_left _ _
    simp only [tryUrlAt, hpre, if_pos, hdrop, takeWhile_append_all isIdChar idrun post hid hpost]
    simp [List.isEmpty_iff, hne]
  rw [show sheetUrlStem.data ++ (idrun ++ post)
      = 'h' :: ("ttps://docs.google.com/spreadsheets/d/".data ++ (idrun ++ post)) from rfl]
  rw [searchSheetUrl]
  rw [show 'h' :: ("ttps://docs.google.com/spreadsheets/d/".data ++ (idrun ++ post))
      = sheetUrlStem.data ++ (idrun ++ post) from rfl]
  rw [hmatch]
  rfl

lemma searchSheetUrl_skip (pre rest : List Char)
    (hno : ∀ i, i < pre.length → ¬ (sheetUrlStem.data <+: (pre ++ rest).drop i)) :
    searchSheetUrl (pre ++ rest) = searchSheetUrl rest := by
  induction pre with
  | nil => rfl
  | cons c pre' ih =>
    have h0 : tryUrlAt (c :: (pre' ++ rest)) = none := by
      have hp : sheetUrlStem.data.isPrefixOf (c :: (pre' ++ rest)) = false := by
        rcases hb : sheetUrlStem.data.isPrefixOf (c :: (pre' ++ rest)) with _ | _
        · rfl
        · exact absurd (isPrefixOf_iff_isPre _ _ |>.mp hb)
            (by simpa using hno 0 (by simp))
      simp [tryUrlAt, hp]
    rw [List.cons_append, searchSheetUrl, h0]
    have hno' : ∀ i, i < pre'.length → ¬ (sheetUrlStem.data <+: (pre' ++ rest).drop i) := by
      intro i hi
      have := hno (i + 1) (by simpa using Nat.succ_lt_succ hi)
      simpa using this
    rw [show (none.orElse fun _ => searchSheetUrl (pre' ++ rest))
        = searchSheetUrl (pre' ++ rest) from rfl]
    exact ih hno'

/-- C1 (amended): (a) for every JSON-like mapping/sequence containing at
any nesting depth a mapping with `spreadsheetId` bound to a non-empty
string, the parser returns *some* URL containing
`docs.google.com/spreadsheets/d/` — but not necessarily the URL built
from that identifier, since an earlier spreadsheet identifier or
URL-bearing value in traversal order preempts it
(`C1_nesting_counterexample`); (b) for a raw string whose first
occurrence of the canonical stem starts the embedded URL, the parser
returns exactly that URL, the identifier being the maximal run of
id-characters after the stem. -/
theorem C1_url_recovery (id : String) (v : PyVal) :
    (ContainsSid id v → id ≠ "" →
       ∃ u, extract_google_sheet_url_from_any v = some u ∧
            sheetFrag.data <:+: u.data) ∧
    (∀ pre idrun post,
       (∀ i, i < pre.length →
          ¬ (sheetUrlStem.data <+: ((pre ++ (sheetUrlStem.data ++ (idrun ++ post))).drop i))) →
       idrun ≠ [] → (∀ c ∈ idrun, isIdChar c = true) →
       (∀ c, post.head? = some c → isIdChar c = false) →
       extract_google_sheet_url_from_any
           (.pstr (String.mk (pre ++ (sheetUrlStem.data ++ (idrun ++ post)))))
         = some (String.mk (sheetUrlStem.data ++ idrun))) := by
  constructor
  · intro hc hid
    obtain ⟨u, hu⟩ := Option.isSome_iff_exists.mp (extract_isSome_of_contains id v hid hc)
    exact ⟨u, hu, extract_infix v u hu⟩
  · intro pre idrun post hno hne hid hpost
    have hsearch : searchSheetUrl (pre ++ (sheetUrlStem.data ++ (idrun ++ post)))
        = some (String.mk (sheetUrlStem.data ++ idrun)) := by
      rw [searchSheetUrl_skip pre _ hno]
      exact searchSheetUrl_at_stem idrun post hne hid hpost
    simp only [extract_google_sheet_url_from_any, regexFallback, stringifyPy]
    rw [hsearch]
    rfl

/-- Witness for C1: a doubly nested identifier yields a fragment-bearing
URL, and a raw string with one embedded canonical URL yields exactly it. -/
theorem C1_url_recovery_witness :
    (∃ u, extract_google_sheet_url_from_any
        (.pdict [("outer", .plist [.pdict [("spreadsheetId", .pstr "abc123")]])])
          = some u ∧ sheetFrag.data <:+: u.data) ∧
    extract_google_sheet_url_from_any
        (.pstr (String.mk ("see ".data ++ (sheetUrlStem.data ++ ("abc123".data ++ " ok".data)))))
      = some (String.mk (sheetUrlStem.data ++ "abc123".data)) := by
  constructor
  · exact (C1_url_recovery "abc123"
        (.pdict [("outer", .plist [.pdict [("spreadsheetId", .pstr "abc123")]])])).1
      (ContainsSid.dict_nest _ "outer" _ (List.Mem.head _)
        (ContainsSid.list_nest _ _ (List.Mem.head _)
          (ContainsSid.dict_here _ rfl)))
      (by decide)
  · exact (C1_url_recovery "abc123" .pnone).2 "see ".data "abc123".data " ok".data
      (by decide) (by decide) (by decide) (by decide)

end LeadAI
